import Mathlib

/-!
Shallow embedding of the trial-parameter resolution and top-trial aggregation
logic of the `Optuna_Tuning_Through_Config` repository
(`optuna_through_config.py` together with the validators of
`optuna_pydantic.py`).

Python scalars are modelled by `Value`, with floats as exact rationals.
Python exceptions are modelled by `PyError` and fallible code returns
`Except PyError`.  Python dictionaries are modelled as insertion-ordered
association lists with dict update semantics (`dictSet`, `dictAppend`).
The external engine's trial object is modelled by `Trial`: the capability
names it exposes plus a pure stub producing a value for each request.
-/

/-- Python scalar values appearing in trial parameters: ints, floats
(modelled as exact rationals), strings and booleans. -/
inductive Value where
  | vInt (n : Int)
  | vFloat (q : ℚ)
  | vStr (s : String)
  | vBool (b : Bool)
  deriving DecidableEq

/-- Python exception values raised by the embedded code.  The
`configurationError` constructor exists only to state the specification's
error taxonomy; the source never constructs it. -/
inductive PyError where
  | valueError (msg : String)
  | typeError (msg : String)
  | attributeError (msg : String)
  | warning (msg : String)
  | configurationError (msg : String)
  deriving DecidableEq

deriving instance DecidableEq for Except

/-- Numeric view of a value: Python treats bools and ints as numbers that
compare with floats. -/
def toQ : Value → Option ℚ
  | .vInt n => some (n : ℚ)
  | .vFloat q => some q
  | .vBool b => some (if b then 1 else 0)
  | .vStr _ => none

/-- Python `a < b` on scalar values: numeric comparison between numbers,
lexicographic comparison between strings, `TypeError` otherwise. -/
def pyLt (a b : Value) : Except PyError Bool :=
  match toQ a, toQ b with
  | some x, some y => .ok (decide (x < y))
  | _, _ =>
    match a, b with
    | .vStr s, .vStr t => .ok (decide (s < t))
    | _, _ => .error (.typeError "comparison not supported between instances")

/-- Loop of Python `min`: keep the current minimum, replace it whenever a
later element compares strictly below it. -/
def pyMinGo : Value → List Value → Except PyError Value
  | m, [] => .ok m
  | m, v :: vs =>
    match pyLt v m with
    | .error e => .error e
    | .ok true => pyMinGo v vs
    | .ok false => pyMinGo m vs

/-- Python `min` over a list; empty input raises `ValueError`. -/
def pyMin : List Value → Except PyError Value
  | [] => .error (.valueError "min() arg is an empty sequence")
  | v :: vs => pyMinGo v vs

/-- Loop of Python `max`: replace the current maximum whenever a later
element compares strictly above it (`v > m`, i.e. `m < v`). -/
def pyMaxGo : Value → List Value → Except PyError Value
  | m, [] => .ok m
  | m, v :: vs =>
    match pyLt m v with
    | .error e => .error e
    | .ok true => pyMaxGo v vs
    | .ok false => pyMaxGo m vs

/-- Python `max` over a list; empty input raises `ValueError`. -/
def pyMax : List Value → Except PyError Value
  | [] => .error (.valueError "max() arg is an empty sequence")
  | v :: vs => pyMaxGo v vs

/-- Numeric value of a run of decimal digits. -/
def natOfDigits (cs : List Char) : Nat :=
  cs.foldl (fun acc c => acc * 10 + (c.toNat - 48)) 0

/-- Smallest exponent `k` with `den ∣ 10 ^ k`, searched up to 40; floats
always have such an exponent because their denominators divide a power of
two. -/
def decExponent (den : Nat) : Option Nat :=
  (List.range 40).find? (fun k => den ∣ 10 ^ k)

/-- Python `str()` on a float: integral values print with a trailing `.0`,
other decimal-exact values print their shortest exact decimal expansion. -/
def qRender (q : ℚ) : String :=
  let sign := if q.num < 0 then "-" else ""
  if q.den = 1 then sign ++ toString q.num.natAbs ++ ".0"
  else
    match decExponent q.den with
    | some k =>
      let scaled := q.num.natAbs * (10 ^ k / q.den)
      let fs := toString (scaled % 10 ^ k)
      let pad := String.mk (List.replicate (k - fs.length) '0')
      sign ++ toString (scaled / 10 ^ k) ++ "." ++ pad ++ fs
    | none => sign ++ toString q.num.natAbs ++ "/" ++ toString q.den

/-- Python `str()` on a scalar value. -/
def pyStr : Value → String
  | .vInt n => toString n
  | .vFloat q => qRender q
  | .vStr s => s
  | .vBool b => if b then "True" else "False"

/-- Split a character list into its longest digit run and the remainder. -/
def takeDigits : List Char → List Char × List Char
  | [] => ([], [])
  | c :: cs =>
    if c.isDigit then
      let r := takeDigits cs
      (c :: r.1, r.2)
    else ([], c :: cs)

/-- Parse a full run of digits, rejecting empty or trailing input. -/
def parseDigitsAll (cs : List Char) : Option Nat :=
  let r := takeDigits cs
  if r.1.isEmpty then none
  else if r.2.isEmpty then some (natOfDigits r.1) else none

/-- Parse an optionally signed run of digits covering the whole input. -/
def parseSignedDigits : List Char → Option Int
  | '+' :: r => (parseDigitsAll r).map (fun n => (n : Int))
  | '-' :: r => (parseDigitsAll r).map (fun n => -(n : Int))
  | r => (parseDigitsAll r).map (fun n => (n : Int))

/-- Parse the exponent tail of a float literal (empty means exponent 0). -/
def parseExpPart : List Char → Option Int
  | [] => some 0
  | 'e' :: rest => parseSignedDigits rest
  | 'E' :: rest => parseSignedDigits rest
  | _ => none

/-- Parse the unsigned mantissa `digits[.digits]` of a float literal,
returning the mantissa as an integer, the count of fractional digits and
the unconsumed remainder. -/
def parseMantissa (cs : List Char) : Option (Nat × Nat × List Char) :=
  let ip := takeDigits cs
  match ip.2 with
  | '.' :: r2 =>
    let fp := takeDigits r2
    if ip.1.isEmpty && fp.1.isEmpty then none
    else some (natOfDigits ip.1 * 10 ^ fp.1.length + natOfDigits fp.1, fp.1.length, fp.2)
  | _ =>
    if ip.1.isEmpty then none else some (natOfDigits ip.1, 0, ip.2)

/-- Strip leading and trailing whitespace, as Python `float()` does. -/
def trimChars (cs : List Char) : List Char :=
  ((cs.dropWhile Char.isWhitespace).reverse.dropWhile Char.isWhitespace).reverse

/-- Parse a Python float literal into an exact rational. -/
def pyParseFloat (s : String) : Option ℚ :=
  let cs := trimChars s.toList
  let sr : Int × List Char :=
    match cs with
    | '+' :: r => (1, r)
    | '-' :: r => (-1, r)
    | r => (1, r)
  match parseMantissa sr.2 with
  | none => none
  | some (m, fl, rest) =>
    match parseExpPart rest with
    | none => none
    | some e =>
      let eAdj := e - (fl : Int)
      if 0 ≤ eAdj then some (mkRat (sr.1 * (m : Int) * (10 ^ eAdj.toNat : Nat)) 1)
      else some (mkRat (sr.1 * (m : Int)) (10 ^ (-eAdj).toNat))

/-- Python `float()` coercion as applied by the grid branch to the chosen
categorical value. -/
def pyFloatValue : Value → Except PyError Value
  | .vInt n => .ok (.vFloat (mkRat n 1))
  | .vFloat q => .ok (.vFloat q)
  | .vBool b => .ok (.vFloat (if b then 1 else 0))
  | .vStr s =>
    match pyParseFloat s with
    | some q => .ok (.vFloat q)
    | none => .error (.valueError ("could not convert string to float: " ++ s))

/-- Does the needle match at the head of the haystack? -/
def matchesAt : List Char → List Char → Bool
  | _, [] => true
  | [], _ :: _ => false
  | a :: as, b :: bs => a == b && matchesAt as bs

/-- Substring search over character lists. -/
def containsSub : List Char → List Char → Bool
  | [], needle => needle.isEmpty
  | c :: rest, needle => matchesAt (c :: rest) needle || containsSub rest needle

/-- Python `needle in hay` on strings. -/
def pyInStr (needle hay : String) : Bool :=
  containsSub hay.toList needle.toList

/-- One entry of `OPTUNA_PARAMS`: `(param_name, suggest_type, param_range,
param_options)`. -/
structure ParamSpec where
  name : String
  suggest_type : String
  range : List Value
  options : List (String × Value)
  deriving DecidableEq

/-- The per-trial sampling capability surface of the external engine: the
method names the trial object exposes, and a pure stub producing the value
returned for a given method, parameter name, positional range and options. -/
structure Trial where
  methods : List String
  call : String → String → List Value → List (String × Value) → Value

/-- Python dict assignment `d[k] = v`: update the value in place when the
key exists, append a fresh entry otherwise. -/
def dictSet (d : List (String × Value)) (k : String) (v : Value) :
    List (String × Value) :=
  if d.any (fun kv => kv.1 = k) then
    d.map (fun kv => if kv.1 = k then (k, v) else kv)
  else d ++ [(k, v)]

/-- Resolution of a single `ParamSpec` against the trial object, following
the three branches of `_set_trial_params`: the grid workaround (stringify
the range, suggest categorically, coerce back to float), the categorical
branch, and the generic numeric branch; a suggest type the trial object
does not expose surfaces as an `AttributeError`. -/
def resolveSpec (trial : Trial) (s : ParamSpec) : Except PyError Value :=
  if s.suggest_type = "suggest_grid" then
    let param_range := s.range.map (fun p => Value.vStr (pyStr p))
    if "suggest_categorical" ∈ trial.methods then
      pyFloatValue (trial.call "suggest_categorical" s.name param_range [])
    else .error (.attributeError "Trial object has no attribute suggest_categorical")
  else if pyInStr "categorical" s.suggest_type then
    if s.suggest_type ∈ trial.methods then
      .ok (trial.call s.suggest_type s.name s.range [])
    else .error (.attributeError ("Trial object has no attribute " ++ s.suggest_type))
  else
    if s.suggest_type ∈ trial.methods then
      .ok (trial.call s.suggest_type s.name s.range s.options)
    else .error (.attributeError ("Trial object has no attribute " ++ s.suggest_type))

/-- One iteration of the `_set_trial_params` loop: resolve the spec and
store its value under the parameter name. -/
def setParamStep (trial : Trial) (acc : List (String × Value)) (s : ParamSpec) :
    Except PyError (List (String × Value)) :=
  match resolveSpec trial s with
  | .error e => .error e
  | .ok v => .ok (dictSet acc s.name v)

/-- `OptunaFinetuning._set_trial_params`: resolve every spec in declaration
order, then overlay every frozen parameter, frozen values overwriting
sampled values at the same key. -/
def _set_trial_params (trial : Trial) (optuna_hyperparameters : List ParamSpec)
    (frozen_hyperparameters : List (String × Value)) :
    Except PyError (List (String × Value)) :=
  match optuna_hyperparameters.foldlM (setParamStep trial) [] with
  | .error e => .error e
  | .ok optuna_parameters =>
    if frozen_hyperparameters.isEmpty then .ok optuna_parameters
    else .ok (frozen_hyperparameters.foldl (fun acc kv => dictSet acc kv.1 kv.2)
      optuna_parameters)

/-- A trial record as read back from the external engine's study: number,
parameter mapping and result vector (empty for skipped trials). -/
structure FrozenTrial where
  number : Int
  params : List (String × Value)
  values : List ℚ
  deriving DecidableEq

/-- Python comparison of result vectors (tuples of floats): lexicographic,
with a strict leading subvector comparing below. -/
def pyListLt : List ℚ → List ℚ → Bool
  | _, [] => false
  | [], _ :: _ => true
  | a :: as, b :: bs =>
    if a < b then true else if b < a then false else pyListLt as bs

/-- The ordering realized by `sorted(..., key=lambda x: x.values,
reverse=True)`: `a` may come before `b` exactly when the result vector of
`a` is not below that of `b`. -/
def descOrder (a b : FrozenTrial) : Prop := pyListLt a.values b.values = false

instance : DecidableRel descOrder := fun _ _ => Bool.decEq _ _

/-- Completed trials: `[trial for trial in trials if trial.values]`. -/
def trialsExceptSkipped (trials : List FrozenTrial) : List FrozenTrial :=
  trials.filter (fun t => !t.values.isEmpty)

/-- The stable descending sort of the completed trials.  Python's `sorted`
is stable, the stable sort by a total preorder is unique, and insertion
sort realizes it. -/
def sortedTrials (trials : List FrozenTrial) : List FrozenTrial :=
  List.insertionSort descOrder (trialsExceptSkipped trials)

/-- `top_n = int(len(sorted_trials) * top_percent / 100)` (truncating
division of non-negative values). -/
def topN (trials : List FrozenTrial) (top_percent : Nat) : Nat :=
  (sortedTrials trials).length * top_percent / 100

/-- `sorted_trials[:top_n] if top_n <= len(sorted_trials) else
sorted_trials`. -/
def topTrials (trials : List FrozenTrial) (top_percent : Nat) : List FrozenTrial :=
  if topN trials top_percent ≤ (sortedTrials trials).length then
    (sortedTrials trials).take (topN trials top_percent)
  else sortedTrials trials

/-- Python dict column append: create the column when absent, then append
the value to it. -/
def dictAppend (d : List (String × List Value)) (k : String) (v : Value) :
    List (String × List Value) :=
  if d.any (fun kv => kv.1 = k) then
    d.map (fun kv => if kv.1 = k then (kv.1, kv.2 ++ [v]) else kv)
  else d ++ [(k, [v])]

/-- Record one selected trial in the `param_ranges` columns: its number,
its 1-based rank, then every parameter value. -/
def addTrialColumns (d : List (String × List Value)) (i : Nat) (t : FrozenTrial) :
    List (String × List Value) :=
  let d1 := dictAppend d "trial_number" (.vInt t.number)
  let d2 := dictAppend d1 "best_trials" (.vInt (i + 1))
  t.params.foldl (fun acc pv => dictAppend acc pv.1 pv.2) d2

/-- The `param_ranges` dict of `_get_top_trials_param_ranges`. -/
def buildParamRanges (top : List FrozenTrial) : List (String × List Value) :=
  top.enum.foldl (fun d p => addTrialColumns d p.1 p.2)
    [("trial_number", []), ("best_trials", [])]

/-- `pd.DataFrame` on a dict of columns requires every column to have the
same length. -/
def sameLengths (d : List (String × List Value)) : Bool :=
  match d with
  | [] => true
  | kv :: rest => rest.all (fun kv2 => kv2.2.length == kv.2.length)

/-- One iteration of the min/max summary loop: skip the `trial_number`
column, otherwise append a row with Python `min` and `max` of the column. -/
def minMaxStep (acc : List (String × Value × Value)) (kv : String × List Value) :
    Except PyError (List (String × Value × Value)) :=
  if kv.1 = "trial_number" then .ok acc
  else
    match pyMin kv.2 with
    | .error e => .error e
    | .ok mn =>
      match pyMax kv.2 with
      | .error e => .error e
      | .ok mx => .ok (acc ++ [(kv.1, mn, mx)])

/-- The min/max summary rows: one row per `param_ranges` column except
`trial_number`, holding Python `min` and `max` of its observed values. -/
def buildMinMax (pr : List (String × List Value)) :
    Except PyError (List (String × Value × Value)) :=
  pr.foldlM minMaxStep []

/-- `OptunaFinetuning._get_top_trials_param_ranges`: drop skipped trials
(error when none remain), sort descending, select the top fraction, build
the per-trial table and then the per-column min/max table. -/
def _get_top_trials_param_ranges (trials : List FrozenTrial) (top_percent_trials : Nat) :
    Except PyError (List (String × List Value) × List (String × Value × Value)) :=
  if (trialsExceptSkipped trials).isEmpty then
    .error (.valueError "All trials have skipped.\n\n")
  else
    let param_ranges := buildParamRanges (topTrials trials top_percent_trials)
    if sameLengths param_ranges then
      match buildMinMax param_ranges with
      | .error e => .error e
      | .ok data => .ok (param_ranges, data)
    else .error (.valueError "All arrays must be of the same length")

/-- Constructor inputs of `OptunaFinetuning` that the claims exercise. -/
structure OptunaInputs where
  metrics_to_optimize : List String
  directions : List String
  n_trials : Int
  top_percent_trials : Int
  deriving DecidableEq

/-- The loaded YAML configuration mapping, reduced to the two entries the
code reads; `none` models a missing key. -/
structure Config where
  optuna_params : Option (List ParamSpec)
  optuna_frozen_params : Option (List (String × Value))
  deriving DecidableEq

/-- Python truthiness of `config.get(key)` for a list/dict entry: false
when the key is missing or its value is empty. -/
def truthyOpt : Option (List α) → Bool
  | none => false
  | some l => !l.isEmpty

/-- `OptunaPydantic.validate_between_0_100`. -/
def validate_between_0_100 (value : Int) : Except PyError Int :=
  if value ≥ 0 ∧ value ≤ 100 then .ok value
  else .error (.valueError ("Input top_percent_trials -- " ++ toString value ++
    " -- is not an int instance."))

/-- `OptunaPydantic.validate_list_of_str`, dynamic part: the list must be
non-empty (the element type checks are static in this embedding). -/
def validate_list_of_str (l : List String) (field : String) :
    Except PyError (List String) :=
  if l.isEmpty then .error (.valueError ("Input " ++ field ++ " is empty."))
  else .ok l

/-- The `OptunaPydantic(**kwargs)` model check, reduced to its dynamic
validators; it errors exactly when some field validator rejects. -/
def optunaPydanticCheck (inp : OptunaInputs) : Except PyError Unit :=
  match validate_list_of_str inp.metrics_to_optimize "metrics_to_optimize" with
  | .error e => .error e
  | .ok _ =>
    match validate_list_of_str inp.directions "directions" with
    | .error e => .error e
    | .ok _ =>
      match validate_between_0_100 inp.top_percent_trials with
      | .error e => .error e
      | .ok _ => .ok ()

/-- The state `_validate_input` leaves on the object, together with whether
a caught pydantic validation error was printed. -/
structure ValidatedState where
  printed_validation_error : Bool
  optuna_hyperparameters : List ParamSpec
  frozen_hyperparameters : List (String × Value)
  deriving DecidableEq

/-- `OptunaFinetuning._validate_input`: the pydantic validation error is
caught and only printed; then the metrics/directions lengths must agree,
`OPTUNA_PARAMS` must be present and truthy (hard error), and a missing or
empty `OPTUNA_FROZEN_PARAMS` raises a `Warning` exception. -/
def _validate_input (inp : OptunaInputs) (config : Config) :
    Except PyError ValidatedState :=
  let printed := match optunaPydanticCheck inp with
    | .ok _ => false
    | .error _ => true
  if inp.metrics_to_optimize.length ≠ inp.directions.length then
    .error (.valueError
      "The length of metrics_to_optimize and directions args should be equal.")
  else if truthyOpt config.optuna_params then
    if truthyOpt config.optuna_frozen_params then
      .ok { printed_validation_error := printed
            optuna_hyperparameters := config.optuna_params.getD []
            frozen_hyperparameters := config.optuna_frozen_params.getD [] }
    else .error (.warning
      "Could not find the dictionnary entry named OPTUNA_FROZEN_PARAMS in the optuna config file.")
  else .error (.valueError
    "Could not find the dictionnary entry named OPTUNA_PARAMS in the optuna config file.")

/-- Does a result carry a raised exception? -/
def exceptIsError : Except PyError α → Bool
  | .error _ => true
  | .ok _ => false

/-- Is the result specifically the specification's `configurationError`? -/
def isConfigurationErrorResult : Except PyError α → Bool
  | .error (.configurationError _) => true
  | _ => false

/-- Observable outcome for the validation claims: `true` when construction
already failed or when the caught validation error was printed. -/
def printedFlagOrErr : Except PyError ValidatedState → Bool
  | .ok st => st.printed_validation_error
  | .error _ => true

/-- The specification scenario: trial 1 scores `[2.0]`, trial 2 is skipped,
trial 3 scores `[5.0]`. -/
def scenarioTrials : List FrozenTrial :=
  [⟨1, [], [2]⟩, ⟨2, [], []⟩, ⟨3, [], [5]⟩]

/-- A single completed trial with one parameter, used at concrete inputs. -/
def singleCompletedTrial : FrozenTrial := ⟨1, [("x", Value.vFloat 3)], [1]⟩

/-- A single skipped trial (empty result vector). -/
def skippedOnlyTrials : List FrozenTrial := [⟨1, [], []⟩]

/-- A trial stub exposing the standard suggest methods and returning a
fixed float for every request. -/
def trialStdStub : Trial :=
  ⟨["suggest_categorical", "suggest_int", "suggest_float"], fun _ _ _ _ => Value.vFloat 0⟩

/-- A spec whose suggest type matches no capability of the trial object. -/
def specUnknownKind : ParamSpec :=
  ⟨"x", "suggest_unknown", [Value.vFloat 0, Value.vFloat 1], []⟩

/-- A grid-kind trial stub choosing the string "2" for every request. -/
def trialGridStub : Trial := ⟨["suggest_categorical"], fun _ _ _ _ => Value.vStr "2"⟩

/-- A grid spec over the integer range `[1, 2]`. -/
def specGrid : ParamSpec := ⟨"n", "suggest_grid", [Value.vInt 1, Value.vInt 2], []⟩

/-- An integer-suggesting trial stub returning 7 for every request. -/
def trialIntStub : Trial := ⟨["suggest_int"], fun _ _ _ _ => Value.vInt 7⟩

/-- A single integer-range spec named "a". -/
def specsIntOnly : List ParamSpec :=
  [⟨"a", "suggest_int", [Value.vInt 0, Value.vInt 10], []⟩]

/-- Frozen parameters colliding with the spec name "a" and adding "b". -/
def frozenAB : List (String × Value) := [("a", Value.vInt 1), ("b", Value.vInt 2)]

/-- A well-formed numeric-range spec, as in the specification scenario. -/
def specOk : ParamSpec :=
  ⟨"lr", "suggest_float", [Value.vFloat (mkRat 1 1000), Value.vFloat (mkRat 1 10)],
    [("log", Value.vBool true)]⟩

/-- A configuration carrying both required entries. -/
def configOk : Config := ⟨some [specOk], some [("seed", Value.vInt 42)]⟩

/-- A configuration whose `OPTUNA_FROZEN_PARAMS` entry is missing. -/
def configNoFrozen : Config := ⟨some [specOk], none⟩

/-- Constructor inputs with an out-of-range top percent of 150. -/
def inpBadPercent : OptunaInputs := ⟨["m"], ["maximize"], 5, 150⟩

/-- Well-formed constructor inputs. -/
def inpOk : OptunaInputs := ⟨["m"], ["maximize"], 5, 20⟩

/-- The per-trial table the aggregator builds from `singleCompletedTrial`
at `top_percent = 100`. -/
def tableC6 : List (String × List Value) :=
  [("trial_number", [Value.vInt 1]), ("best_trials", [Value.vInt 1]),
   ("x", [Value.vFloat 3])]

/-- The min/max table the aggregator builds from `singleCompletedTrial`
at `top_percent = 100`. -/
def rangesC6 : List (String × Value × Value) :=
  [("best_trials", Value.vInt 1, Value.vInt 1),
   ("x", Value.vFloat 3, Value.vFloat 3)]

theorem exceptBind_ok (a : α) (f : α → Except PyError β) :
    (Except.ok a >>= f) = f a := rfl

theorem exceptBind_err (e : PyError) (f : α → Except PyError β) :
    ((Except.error e : Except PyError α) >>= f) = .error e := rfl

theorem pyListLt_irrefl (as : List ℚ) : pyListLt as as = false := by
  induction as with
  | nil => rfl
  | cons a as ih => simp [pyListLt, ih]

theorem pyListLt_asymm (as bs : List ℚ) (h : pyListLt as bs = true) :
    pyListLt bs as = false := by
  induction as generalizing bs with
  | nil =>
    cases bs with
    | nil => simp [pyListLt] at h
    | cons b bs => rfl
  | cons a as ih =>
    cases bs with
    | nil => simp [pyListLt] at h
    | cons b bs =>
      simp only [pyListLt] at h ⊢
      by_cases hab : a < b
      · simp [hab, asymm hab]
      · by_cases hba : b < a
        · simp [hab, hba] at h
        · simp only [hab, hba, if_false] at h
          simp [hab, hba, ih bs h]

theorem pyListLt_trans (as bs cs : List ℚ) (h1 : pyListLt as bs = true)
    (h2 : pyListLt bs cs = true) : pyListLt as cs = true := by
  induction as generalizing bs cs with
  | nil =>
    cases bs with
    | nil => simp [pyListLt] at h1
    | cons b bs =>
      cases cs with
      | nil => simp [pyListLt] at h2
      | cons c cs => rfl
  | cons a as ih =>
    cases bs with
    | nil => simp [pyListLt] at h1
    | cons b bs =>
      cases cs with
      | nil => simp [pyListLt] at h2
      | cons c cs =>
        simp only [pyListLt] at h1 h2 ⊢
        by_cases hab : a < b
        · by_cases hbc : b < c
          · simp [lt_trans hab hbc]
          · by_cases hcb : c < b
            · simp [hbc, hcb] at h2
            · have hbc' : b = c := le_antisymm (le_of_not_lt hcb) (le_of_not_lt hbc)
              subst hbc'
              simp [hab]
        · by_cases hba : b < a
          · simp [hab, hba] at h1
          · have hab' : a = b := le_antisymm (le_of_not_lt hba) (le_of_not_lt hab)
            subst hab'
            simp only [hab, hba, if_false] at h1
            by_cases hac : a < c
            · simp [hac]
            · by_cases hca : c < a
              · simp [hac, hca] at h2
              · simp only [hac, hca, if_false] at h2 ⊢
                exact ih bs cs h1 h2

theorem pyListLt_connex (as bs : List ℚ) (h1 : pyListLt as bs = false)
    (h2 : pyListLt bs as = false) : as = bs := by
  induction as generalizing bs with
  | nil =>
    cases bs with
    | nil => rfl
    | cons b bs => simp [pyListLt] at h1
  | cons a as ih =>
    cases bs with
    | nil => simp [pyListLt] at h2
    | cons b bs =>
      simp only [pyListLt] at h1 h2
      by_cases hab : a < b
      · simp [hab] at h1
      · by_cases hba : b < a
        · simp [hab, hba] at h2
        · have hab' : a = b := le_antisymm (le_of_not_lt hba) (le_of_not_lt hab)
          simp only [hab, hba, if_false] at h1 h2
          rw [hab', ih bs h1 h2]

theorem pyListLt_false_cases (as bs : List ℚ) (h : pyListLt as bs = false) :
    pyListLt bs as = true ∨ as = bs := by
  cases h2 : pyListLt bs as with
  | true => exact Or.inl rfl
  | false => exact Or.inr (pyListLt_connex as bs h h2)

instance : IsTotal FrozenTrial descOrder where
  total a b := by
    cases h : pyListLt a.values b.values with
    | false => exact Or.inl h
    | true => exact Or.inr (pyListLt_asymm _ _ h)

instance : IsTrans FrozenTrial descOrder where
  trans a b c hab hbc := by
    unfold descOrder at hab hbc ⊢
    cases hac : pyListLt a.values c.values with
    | false => rfl
    | true =>
      exfalso
      rcases pyListLt_false_cases _ _ hab with hba | hba
      · rcases pyListLt_false_cases _ _ hbc with hcb | hcb
        · have h1 : pyListLt c.values a.values = true := pyListLt_trans _ _ _ hcb hba
          have h2 : pyListLt c.values c.values = true := pyListLt_trans _ _ _ h1 hac
          simp [pyListLt_irrefl] at h2
        · rw [hcb] at hba
          have h2 : pyListLt c.values c.values = true := pyListLt_trans _ _ _ hba hac
          simp [pyListLt_irrefl] at h2
      · rcases pyListLt_false_cases _ _ hbc with hcb | hcb
        · rw [← hba] at hcb
          have h2 : pyListLt a.values a.values = true := pyListLt_trans _ _ _ hac hcb
          simp [pyListLt_irrefl] at h2
        · rw [hba, hcb] at hac
          simp [pyListLt_irrefl] at hac

theorem toQ_none_vStr (v : Value) (h : toQ v = none) : ∃ s, v = .vStr s := by
  cases v with
  | vInt n => simp [toQ] at h
  | vFloat q => simp [toQ] at h
  | vBool b => simp [toQ] at h
  | vStr s => exact ⟨s, rfl⟩

theorem pyLt_num_num (a b : Value) (qa qb : ℚ) (ha : toQ a = some qa)
    (hb : toQ b = some qb) : pyLt a b = .ok (decide (qa < qb)) := by
  unfold pyLt
  rw [ha, hb]

theorem pyLt_str_str (s t : String) :
    pyLt (.vStr s) (.vStr t) = .ok (decide (s < t)) := rfl

theorem pyLt_num_str (a : Value) (qa : ℚ) (ha : toQ a = some qa) (t : String) :
    pyLt a (.vStr t) = .error (.typeError "comparison not supported between instances") := by
  cases a with
  | vStr s => simp [toQ] at ha
  | vInt n => rfl
  | vFloat q => rfl
  | vBool b => rfl

theorem pyLt_str_num (s : String) (b : Value) (qb : ℚ) (hb : toQ b = some qb) :
    pyLt (.vStr s) b = .error (.typeError "comparison not supported between instances") := by
  cases b with
  | vStr t => simp [toQ] at hb
  | vInt n => rfl
  | vFloat q => rfl
  | vBool b => rfl

theorem pyMinGo_num (vs : List Value) :
    ∀ (m : Value) (qm : ℚ), toQ m = some qm → ∀ r, pyMinGo m vs = .ok r →
    ∃ qr, toQ r = some qr ∧ qr ≤ qm ∧ ∀ v ∈ vs, ∃ qv, toQ v = some qv ∧ qr ≤ qv := by
  induction vs with
  | nil =>
    intro m qm hm r hr
    simp only [pyMinGo] at hr
    cases hr
    exact ⟨qm, hm, le_refl qm, by simp⟩
  | cons v vs ih =>
    intro m qm hm r hr
    simp only [pyMinGo] at hr
    split at hr
    next e heq => simp at hr
    next heq =>
      cases hv : toQ v with
      | none =>
        obtain ⟨s, rfl⟩ := toQ_none_vStr v hv
        rw [pyLt_str_num s m qm hm] at heq
        simp at heq
      | some qv =>
        rw [pyLt_num_num v m qv qm hv hm] at heq
        have hlt : qv < qm := by
          have := Except.ok.inj heq
          exact of_decide_eq_true this
        obtain ⟨qr, hqr, hle, hall⟩ := ih v qv hv r hr
        refine ⟨qr, hqr, le_trans hle (le_of_lt hlt), ?_⟩
        intro w hw
        rcases List.mem_cons.mp hw with rfl | hw
        · exact ⟨qv, hv, hle⟩
        · exact hall w hw
    next heq =>
      cases hv : toQ v with
      | none =>
        obtain ⟨s, rfl⟩ := toQ_none_vStr v hv
        rw [pyLt_str_num s m qm hm] at heq
        simp at heq
      | some qv =>
        rw [pyLt_num_num v m qv qm hv hm] at heq
        have hnlt : ¬ qv < qm := by
          have := Except.ok.inj heq
          exact of_decide_eq_false this
        obtain ⟨qr, hqr, hle, hall⟩ := ih m qm hm r hr
        refine ⟨qr, hqr, hle, ?_⟩
        intro w hw
        rcases List.mem_cons.mp hw with rfl | hw
        · exact ⟨qv, hv, le_trans hle (le_of_not_lt hnlt)⟩
        · exact hall w hw

theorem pyMinGo_str (vs : List Value) :
    ∀ (sm : String) r, pyMinGo (.vStr sm) vs = .ok r →
    ∃ sr, r = .vStr sr ∧ sr ≤ sm ∧ ∀ v ∈ vs, ∃ sv, v = .vStr sv ∧ sr ≤ sv := by
  induction vs with
  | nil =>
    intro sm r hr
    simp only [pyMinGo] at hr
    cases hr
    exact ⟨sm, rfl, le_refl sm, by simp⟩
  | cons v vs ih =>
    intro sm r hr
    simp only [pyMinGo] at hr
    split at hr
    next e heq => simp at hr
    next heq =>
      cases hv : toQ v with
      | some qv =>
        rw [pyLt_num_str v qv hv sm] at heq
        simp at heq
      | none =>
        obtain ⟨sv, rfl⟩ := toQ_none_vStr v hv
        rw [pyLt_str_str sv sm] at heq
        have hlt : sv < sm := by
          have := Except.ok.inj heq
          exact of_decide_eq_true this
        obtain ⟨sr, hsr, hle, hall⟩ := ih sv r hr
        refine ⟨sr, hsr, le_trans hle (le_of_lt hlt), ?_⟩
        intro w hw
        rcases List.mem_cons.mp hw with rfl | hw
        · exact ⟨sv, rfl, hle⟩
        · exact hall w hw
    next heq =>
      cases hv : toQ v with
      | some qv =>
        rw [pyLt_num_str v qv hv sm] at heq
        simp at heq
      | none =>
        obtain ⟨sv, rfl⟩ := toQ_none_vStr v hv
        rw [pyLt_str_str sv sm] at heq
        have hnlt : ¬ sv < sm := by
          have := Except.ok.inj heq
          exact of_decide_eq_false this
        obtain ⟨sr, hsr, hle, hall⟩ := ih sm r hr
        refine ⟨sr, hsr, hle, ?_⟩
        intro w hw
        rcases List.mem_cons.mp hw with rfl | hw
        · exact ⟨sv, rfl, le_trans hle (le_of_not_lt hnlt)⟩
        · exact hall w hw

theorem pyMin_spec (vs : List Value) (m : Value) (h : pyMin vs = .ok m) :
    ∀ v ∈ vs, pyLt v m = .ok false := by
  cases vs with
  | nil => simp [pyMin] at h
  | cons v0 rest =>
    simp only [pyMin] at h
    cases hv0 : toQ v0 with
    | some q0 =>
      obtain ⟨qr, hqr, hle, hall⟩ := pyMinGo_num rest v0 q0 hv0 m h
      intro v hv
      rcases List.mem_cons.mp hv with rfl | hv
      · rw [pyLt_num_num v m q0 qr hv0 hqr]
        simp [not_lt.mpr hle]
      · obtain ⟨qv, hqv, hge⟩ := hall v hv
        rw [pyLt_num_num v m qv qr hqv hqr]
        simp [not_lt.mpr hge]
    | none =>
      obtain ⟨s0, rfl⟩ := toQ_none_vStr v0 hv0
      obtain ⟨sr, rfl, hle, hall⟩ := pyMinGo_str rest s0 m h
      intro v hv
      rcases List.mem_cons.mp hv with rfl | hv
      · rw [pyLt_str_str s0 sr]
        simp [not_lt.mpr hle]
      · obtain ⟨sv, rfl, hge⟩ := hall v hv
        rw [pyLt_str_str sv sr]
        simp [not_lt.mpr hge]

theorem pyMaxGo_num (vs : List Value) :
    ∀ (m : Value) (qm : ℚ), toQ m = some qm → ∀ r, pyMaxGo m vs = .ok r →
    ∃ qr, toQ r = some qr ∧ qm ≤ qr ∧ ∀ v ∈ vs, ∃ qv, toQ v = some qv ∧ qv ≤ qr := by
  induction vs with
  | nil =>
    intro m qm hm r hr
    simp only [pyMaxGo] at hr
    cases hr
    exact ⟨qm, hm, le_refl qm, by simp⟩
  | cons v vs ih =>
    intro m qm hm r hr
    simp only [pyMaxGo] at hr
    split at hr
    next e heq => simp at hr
    next heq =>
      cases hv : toQ v with
      | none =>
        obtain ⟨s, rfl⟩ := toQ_none_vStr v hv
        rw [pyLt_num_str m qm hm s] at heq
        simp at heq
      | some qv =>
        rw [pyLt_num_num m v qm qv hm hv] at heq
        have hlt : qm < qv := by
          have := Except.ok.inj heq
          exact of_decide_eq_true this
        obtain ⟨qr, hqr, hle, hall⟩ := ih v qv hv r hr
        refine ⟨qr, hqr, le_trans (le_of_lt hlt) hle, ?_⟩
        intro w hw
        rcases List.mem_cons.mp hw with rfl | hw
        · exact ⟨qv, hv, hle⟩
        · exact hall w hw
    next heq =>
      cases hv : toQ v with
      | none =>
        obtain ⟨s, rfl⟩ := toQ_none_vStr v hv
        rw [pyLt_num_str m qm hm s] at heq
        simp at heq
      | some qv =>
        rw [pyLt_num_num m v qm qv hm hv] at heq
        have hnlt : ¬ qm < qv := by
          have := Except.ok.inj heq
          exact of_decide_eq_false this
        obtain ⟨qr, hqr, hle, hall⟩ := ih m qm hm r hr
        refine ⟨qr, hqr, hle, ?_⟩
        intro w hw
        rcases List.mem_cons.mp hw with rfl | hw
        · exact ⟨qv, hv, le_trans (le_of_not_lt hnlt) hle⟩
        · exact hall w hw

theorem pyMaxGo_str (vs : List Value) :
    ∀ (sm : String) r, pyMaxGo (.vStr sm) vs = .ok r →
    ∃ sr, r = .vStr sr ∧ sm ≤ sr ∧ ∀ v ∈ vs, ∃ sv, v = .vStr sv ∧ sv ≤ sr := by
  induction vs with
  | nil =>
    intro sm r hr
    simp only [pyMaxGo] at hr
    cases hr
    exact ⟨sm, rfl, le_refl sm, by simp⟩
  | cons v vs ih =>
    intro sm r hr
    simp only [pyMaxGo] at hr
    split at hr
    next e heq => simp at hr
    next heq =>
      cases hv : toQ v with
      | some qv =>
        rw [pyLt_str_num sm v qv hv] at heq
        simp at heq
      | none =>
        obtain ⟨sv, rfl⟩ := toQ_none_vStr v hv
        rw [pyLt_str_str sm sv] at heq
        have hlt : sm < sv := by
          have := Except.ok.inj heq
          exact of_decide_eq_true this
        obtain ⟨sr, hsr, hle, hall⟩ := ih sv r hr
        refine ⟨sr, hsr, le_trans (le_of_lt hlt) hle, ?_⟩
        intro w hw
        rcases List.mem_cons.mp hw with rfl | hw
        · exact ⟨sv, rfl, hle⟩
        · exact hall w hw
    next heq =>
      cases hv : toQ v with
      | some qv =>
        rw [pyLt_str_num sm v qv hv] at heq
        simp at heq
      | none =>
        obtain ⟨sv, rfl⟩ := toQ_none_vStr v hv
        rw [pyLt_str_str sm sv] at heq
        have hnlt : ¬ sm < sv := by
          have := Except.ok.inj heq
          exact of_decide_eq_false this
        obtain ⟨sr, hsr, hle, hall⟩ := ih sm r hr
        refine ⟨sr, hsr, hle, ?_⟩
        intro w hw
        rcases List.mem_cons.mp hw with rfl | hw
        · exact ⟨sv, rfl, le_trans (le_of_not_lt hnlt) hle⟩
        · exact hall w hw

theorem pyMax_spec (vs : List Value) (m : Value) (h : pyMax vs = .ok m) :
    ∀ v ∈ vs, pyLt m v = .ok false := by
  cases vs with
  | nil => simp [pyMax] at h
  | cons v0 rest =>
    simp only [pyMax] at h
    cases hv0 : toQ v0 with
    | some q0 =>
      obtain ⟨qr, hqr, hle, hall⟩ := pyMaxGo_num rest v0 q0 hv0 m h
      intro v hv
      rcases List.mem_cons.mp hv with rfl | hv
      · rw [pyLt_num_num m v qr q0 hqr hv0]
        simp [not_lt.mpr hle]
      · obtain ⟨qv, hqv, hge⟩ := hall v hv
        rw [pyLt_num_num m v qr qv hqr hqv]
        simp [not_lt.mpr hge]
    | none =>
      obtain ⟨s0, rfl⟩ := toQ_none_vStr v0 hv0
      obtain ⟨sr, rfl, hle, hall⟩ := pyMaxGo_str rest s0 m h
      intro v hv
      rcases List.mem_cons.mp hv with rfl | hv
      · rw [pyLt_str_str sr s0]
        simp [not_lt.mpr hle]
      · obtain ⟨sv, rfl, hge⟩ := hall v hv
        rw [pyLt_str_str sr sv]
        simp [not_lt.mpr hge]

theorem dictSet_pos (d : List (String × Value)) (k : String) (v : Value)
    (h : d.any (fun kv => kv.1 = k) = true) :
    dictSet d k v = d.map (fun kv => if kv.1 = k then (k, v) else kv) := by
  unfold dictSet
  rw [if_pos h]

theorem dictSet_neg (d : List (String × Value)) (k : String) (v : Value)
    (h : d.any (fun kv => kv.1 = k) = false) :
    dictSet d k v = d ++ [(k, v)] := by
  unfold dictSet
  rw [if_neg (by simp [h])]

theorem keysMapUpdate (k : String) (v : Value) (d : List (String × Value)) :
    (d.map (fun kv => if kv.1 = k then (k, v) else kv)).map Prod.fst =
      d.map Prod.fst := by
  induction d with
  | nil => rfl
  | cons kv rest ih =>
    simp only [List.map_cons]
    rw [ih]
    by_cases hk : kv.1 = k
    · simp [hk]
    · simp [hk]

theorem dictSet_keysMap (d : List (String × Value)) (k : String) (v : Value)
    (h : d.any (fun kv => kv.1 = k) = true) :
    (dictSet d k v).map Prod.fst = d.map Prod.fst := by
  rw [dictSet_pos d k v h]
  exact keysMapUpdate k v d

theorem any_key_true (d : List (String × Value)) (k : String)
    (h : d.any (fun kv => kv.1 = k) = true) : k ∈ d.map Prod.fst := by
  obtain ⟨kv, hkv, hk⟩ := List.any_eq_true.mp h
  exact List.mem_map.mpr ⟨kv, hkv, of_decide_eq_true hk⟩

theorem any_key_false (d : List (String × Value)) (k : String)
    (h : d.any (fun kv => kv.1 = k) = false) : k ∉ d.map Prod.fst := by
  intro hk
  obtain ⟨kv, hkv, hk'⟩ := List.mem_map.mp hk
  have := List.any_eq_false.mp h kv hkv
  simp [hk'] at this

theorem dictSet_keys_mem (d : List (String × Value)) (k : String) (v : Value)
    (x : String) :
    x ∈ (dictSet d k v).map Prod.fst ↔ x ∈ d.map Prod.fst ∨ x = k := by
  cases h : d.any (fun kv => kv.1 = k) with
  | true =>
    rw [dictSet_keysMap d k v h]
    constructor
    · exact Or.inl
    · rintro (hx | rfl)
      · exact hx
      · exact any_key_true d x h
  | false =>
    rw [dictSet_neg d k v h]
    simp

theorem dictSet_keys_nodup (d : List (String × Value)) (k : String) (v : Value)
    (h : (d.map Prod.fst).Nodup) : ((dictSet d k v).map Prod.fst).Nodup := by
  cases hc : d.any (fun kv => kv.1 = k) with
  | true => rw [dictSet_keysMap d k v hc]; exact h
  | false =>
    rw [dictSet_neg d k v hc, List.map_append]
    simp only [List.map_cons, List.map_nil]
    rw [List.nodup_append]
    exact ⟨h, List.nodup_singleton k, by simpa using any_key_false d k hc⟩

theorem dictSet_mem_self (d : List (String × Value)) (k : String) (v : Value) :
    (k, v) ∈ dictSet d k v := by
  cases hc : d.any (fun kv => kv.1 = k) with
  | true =>
    rw [dictSet_pos d k v hc]
    obtain ⟨kv, hkv, hk⟩ := List.any_eq_true.mp hc
    exact List.mem_map.mpr ⟨kv, hkv, by simp [of_decide_eq_true hk]⟩
  | false =>
    rw [dictSet_neg d k v hc]
    simp

theorem dictSet_mem_preserve (d : List (String × Value)) (k : String) (v : Value)
    (x : String × Value) (hx : x ∈ d) (hne : x.1 ≠ k) : x ∈ dictSet d k v := by
  cases hc : d.any (fun kv => kv.1 = k) with
  | true =>
    rw [dictSet_pos d k v hc]
    exact List.mem_map.mpr ⟨x, hx, by simp [hne]⟩
  | false =>
    rw [dictSet_neg d k v hc]
    exact List.mem_append_left _ hx

theorem dictAppend_pos (d : List (String × List Value)) (k : String) (v : Value)
    (h : d.any (fun kv => kv.1 = k) = true) :
    dictAppend d k v = d.map (fun kv => if kv.1 = k then (kv.1, kv.2 ++ [v]) else kv) := by
  unfold dictAppend
  rw [if_pos h]

theorem dictAppend_neg (d : List (String × List Value)) (k : String) (v : Value)
    (h : d.any (fun kv => kv.1 = k) = false) :
    dictAppend d k v = d ++ [(k, [v])] := by
  unfold dictAppend
  rw [if_neg (by simp [h])]

theorem keysMapAppendUpdate (k : String) (v : Value) (d : List (String × List Value)) :
    (d.map (fun kv => if kv.1 = k then (kv.1, kv.2 ++ [v]) else kv)).map Prod.fst =
      d.map Prod.fst := by
  induction d with
  | nil => rfl
  | cons kv rest ih =>
    simp only [List.map_cons]
    rw [ih]
    by_cases hk : kv.1 = k
    · simp [hk]
    · simp [hk]

theorem dictAppend_keysMap (d : List (String × List Value)) (k : String) (v : Value)
    (h : d.any (fun kv => kv.1 = k) = true) :
    (dictAppend d k v).map Prod.fst = d.map Prod.fst := by
  rw [dictAppend_pos d k v h]
  exact keysMapAppendUpdate k v d

theorem any_key_false2 (d : List (String × List Value)) (k : String)
    (h : d.any (fun kv => kv.1 = k) = false) : k ∉ d.map Prod.fst := by
  intro hk
  obtain ⟨kv, hkv, hk'⟩ := List.mem_map.mp hk
  have := List.any_eq_false.mp h kv hkv
  simp [hk'] at this

theorem dictAppend_keys_nodup (d : List (String × List Value)) (k : String) (v : Value)
    (h : (d.map Prod.fst).Nodup) : ((dictAppend d k v).map Prod.fst).Nodup := by
  cases hc : d.any (fun kv => kv.1 = k) with
  | true => rw [dictAppend_keysMap d k v hc]; exact h
  | false =>
    rw [dictAppend_neg d k v hc, List.map_append]
    simp only [List.map_cons, List.map_nil]
    rw [List.nodup_append]
    exact ⟨h, List.nodup_singleton k, by simpa using any_key_false2 d k hc⟩

theorem assoc_nodup_unique {β : Type} (l : List (String × β))
    (h : (l.map Prod.fst).Nodup) (k : String) (a b : β)
    (ha : (k, a) ∈ l) (hb : (k, b) ∈ l) : a = b := by
  induction l with
  | nil => cases ha
  | cons p rest ih =>
    rw [List.map_cons] at h
    have hnd := List.nodup_cons.mp h
    rcases List.mem_cons.mp ha with ha0 | ha0
    · rcases List.mem_cons.mp hb with hb0 | hb0
      · rw [← ha0] at hb0
        exact (((Prod.mk.injEq k b k a).mp hb0).2).symm
      · exfalso
        apply hnd.1
        rw [← ha0]
        exact List.mem_map.mpr ⟨(k, b), hb0, rfl⟩
    · rcases List.mem_cons.mp hb with hb0 | hb0
      · exfalso
        apply hnd.1
        rw [← hb0]
        exact List.mem_map.mpr ⟨(k, a), ha0, rfl⟩
      · exact ih hnd.2 ha0 hb0

theorem dictAppend_foldl_nodup (l : List (String × Value)) :
    ∀ d : List (String × List Value), (d.map Prod.fst).Nodup →
    ((l.foldl (fun acc pv => dictAppend acc pv.1 pv.2) d).map Prod.fst).Nodup := by
  induction l with
  | nil => intro d h; exact h
  | cons pv rest ih =>
    intro d h
    simp only [List.foldl_cons]
    exact ih _ (dictAppend_keys_nodup d pv.1 pv.2 h)

theorem addTrialColumns_nodup (d : List (String × List Value)) (i : Nat)
    (t : FrozenTrial) (h : (d.map Prod.fst).Nodup) :
    ((addTrialColumns d i t).map Prod.fst).Nodup := by
  unfold addTrialColumns
  exact dictAppend_foldl_nodup t.params _
    (dictAppend_keys_nodup _ _ _ (dictAppend_keys_nodup _ _ _ h))

theorem buildParamRanges_keys_nodup (top : List FrozenTrial) :
    ((buildParamRanges top).map Prod.fst).Nodup := by
  unfold buildParamRanges
  have hgen : ∀ (l : List (Nat × FrozenTrial)) (d : List (String × List Value)),
      (d.map Prod.fst).Nodup →
      ((l.foldl (fun d p => addTrialColumns d p.1 p.2) d).map Prod.fst).Nodup := by
    intro l
    induction l with
    | nil => intro d h; exact h
    | cons p rest ih =>
      intro d h
      simp only [List.foldl_cons]
      exact ih _ (addTrialColumns_nodup d p.1 p.2 h)
  exact hgen _ _ (by simp)

theorem setParamStep_ok (trial : Trial) (acc : List (String × Value)) (s : ParamSpec)
    (acc1 : List (String × Value)) (h : setParamStep trial acc s = .ok acc1) :
    ∃ v, resolveSpec trial s = .ok v ∧ acc1 = dictSet acc s.name v := by
  unfold setParamStep at h
  cases hres : resolveSpec trial s with
  | error e => rw [hres] at h; simp at h
  | ok v =>
    rw [hres] at h
    exact ⟨v, rfl, (Except.ok.inj h).symm⟩

theorem setParams_fold_keys (trial : Trial) (specs : List ParamSpec) :
    ∀ acc ps, specs.foldlM (setParamStep trial) acc = .ok ps →
    ((acc.map Prod.fst).Nodup → (ps.map Prod.fst).Nodup) ∧
    (∀ k, k ∈ ps.map Prod.fst ↔
      k ∈ acc.map Prod.fst ∨ k ∈ specs.map ParamSpec.name) := by
  induction specs with
  | nil =>
    intro acc ps h
    rw [List.foldlM_nil] at h
    have hps : acc = ps := Except.ok.inj h
    subst hps
    exact ⟨id, fun k => by simp⟩
  | cons s rest ih =>
    intro acc ps h
    rw [List.foldlM_cons] at h
    cases hstep : setParamStep trial acc s with
    | error e => rw [hstep, exceptBind_err] at h; simp at h
    | ok acc1 =>
      rw [hstep, exceptBind_ok] at h
      obtain ⟨hnd, hmem⟩ := ih acc1 ps h
      obtain ⟨v, hres, hacc⟩ := setParamStep_ok trial acc s acc1 hstep
      subst hacc
      constructor
      · intro hacnd
        exact hnd (dictSet_keys_nodup acc s.name v hacnd)
      · intro k
        rw [hmem k, dictSet_keys_mem acc s.name v k]
        simp only [List.map_cons, List.mem_cons]
        tauto

theorem dictSet_foldl_keys_mem (l : List (String × Value)) :
    ∀ (d : List (String × Value)) (k : String),
    k ∈ (l.foldl (fun acc kv => dictSet acc kv.1 kv.2) d).map Prod.fst ↔
      k ∈ d.map Prod.fst ∨ k ∈ l.map Prod.fst := by
  induction l with
  | nil => intro d k; simp
  | cons p rest ih =>
    intro d k
    simp only [List.foldl_cons]
    rw [ih (dictSet d p.1 p.2) k, dictSet_keys_mem d p.1 p.2 k]
    simp only [List.map_cons, List.mem_cons]
    tauto

theorem dictSet_foldl_nodup (l : List (String × Value)) :
    ∀ d : List (String × Value), (d.map Prod.fst).Nodup →
    ((l.foldl (fun acc kv => dictSet acc kv.1 kv.2) d).map Prod.fst).Nodup := by
  induction l with
  | nil => intro d h; exact h
  | cons p rest ih =>
    intro d h
    simp only [List.foldl_cons]
    exact ih _ (dictSet_keys_nodup d p.1 p.2 h)

theorem dictSet_foldl_preserve (l : List (String × Value)) :
    ∀ (d : List (String × Value)) (kv : String × Value), kv ∈ d →
    kv.1 ∉ l.map Prod.fst →
    kv ∈ l.foldl (fun acc p => dictSet acc p.1 p.2) d := by
  induction l with
  | nil => intro d kv h _; exact h
  | cons p rest ih =>
    intro d kv h hnot
    simp only [List.map_cons, List.mem_cons] at hnot
    push_neg at hnot
    simp only [List.foldl_cons]
    exact ih _ kv (dictSet_mem_preserve d p.1 p.2 kv h hnot.1) hnot.2

theorem frozen_overlay_mem (frozen : List (String × Value)) :
    ∀ d : List (String × Value), (frozen.map Prod.fst).Nodup →
    ∀ kv ∈ frozen, kv ∈ frozen.foldl (fun acc p => dictSet acc p.1 p.2) d := by
  induction frozen with
  | nil => intro d _ kv h; cases h
  | cons p rest ih =>
    intro d hnd kv hkv
    simp only [List.map_cons] at hnd
    have hnd' := List.nodup_cons.mp hnd
    simp only [List.foldl_cons]
    rcases List.mem_cons.mp hkv with rfl | hkv
    · exact dictSet_foldl_preserve rest _ kv (dictSet_mem_self d kv.1 kv.2) hnd'.1
    · exact ih _ hnd'.2 kv hkv

theorem minMaxStep_ok (acc : List (String × Value × Value)) (kv : String × List Value)
    (out : List (String × Value × Value)) (h : minMaxStep acc kv = .ok out) :
    (kv.1 = "trial_number" ∧ out = acc) ∨
    (kv.1 ≠ "trial_number" ∧ ∃ mn mx, pyMin kv.2 = .ok mn ∧ pyMax kv.2 = .ok mx ∧
      out = acc ++ [(kv.1, mn, mx)]) := by
  unfold minMaxStep at h
  by_cases hk : kv.1 = "trial_number"
  · rw [if_pos hk] at h
    exact Or.inl ⟨hk, (Except.ok.inj h).symm⟩
  · rw [if_neg hk] at h
    cases hmn : pyMin kv.2 with
    | error e => rw [hmn] at h; simp at h
    | ok mn =>
      rw [hmn] at h
      cases hmx : pyMax kv.2 with
      | error e => rw [hmx] at h; simp at h
      | ok mx =>
        rw [hmx] at h
        exact Or.inr ⟨hk, mn, mx, rfl, rfl, (Except.ok.inj h).symm⟩

theorem buildMinMax_fold_keys (pr : List (String × List Value)) :
    ∀ acc data, pr.foldlM minMaxStep acc = .ok data →
    data.map Prod.fst =
      acc.map Prod.fst ++ (pr.map Prod.fst).filter (fun s => !(s == "trial_number")) := by
  induction pr with
  | nil =>
    intro acc data h
    rw [List.foldlM_nil] at h
    rw [← Except.ok.inj h]
    simp
  | cons kv rest ih =>
    intro acc data h
    rw [List.foldlM_cons] at h
    cases hstep : minMaxStep acc kv with
    | error e => rw [hstep, exceptBind_err] at h; simp at h
    | ok acc1 =>
      rw [hstep, exceptBind_ok] at h
      have hrec := ih acc1 data h
      rcases minMaxStep_ok acc kv acc1 hstep with ⟨hk, rfl⟩ | ⟨hk, mn, mx, _, _, hout⟩
      · rw [hrec]
        simp [List.filter_cons, hk]
      · subst hout
        rw [hrec]
        simp [List.filter_cons, hk]

theorem buildMinMax_fold_rows (pr : List (String × List Value)) :
    ∀ acc data, pr.foldlM minMaxStep acc = .ok data →
    ∀ r ∈ data, r ∈ acc ∨
      ∃ vs, (r.1, vs) ∈ pr ∧ pyMin vs = .ok r.2.1 ∧ pyMax vs = .ok r.2.2 := by
  induction pr with
  | nil =>
    intro acc data h r hr
    rw [List.foldlM_nil] at h
    rw [← Except.ok.inj h] at hr
    exact Or.inl hr
  | cons kv rest ih =>
    intro acc data h r hr
    rw [List.foldlM_cons] at h
    cases hstep : minMaxStep acc kv with
    | error e => rw [hstep, exceptBind_err] at h; simp at h
    | ok acc1 =>
      rw [hstep, exceptBind_ok] at h
      rcases ih acc1 data h r hr with hracc1 | ⟨vs, hvs, hmn, hmx⟩
      · rcases minMaxStep_ok acc kv acc1 hstep with ⟨hk, rfl⟩ | ⟨hk, mn, mx, hmn, hmx, hout⟩
        · exact Or.inl hracc1
        · subst hout
          rcases List.mem_append.mp hracc1 with hracc | hrnew
          · exact Or.inl hracc
          · have hreq : r = (kv.1, mn, mx) := by simpa using hrnew
            subst hreq
            exact Or.inr ⟨kv.2, List.mem_cons_self kv rest, hmn, hmx⟩
      · exact Or.inr ⟨vs, List.mem_cons_of_mem kv hvs, hmn, hmx⟩

theorem getTop_ok_inv (trials : List FrozenTrial) (p : Nat)
    (pr : List (String × List Value)) (data : List (String × Value × Value))
    (h : _get_top_trials_param_ranges trials p = .ok (pr, data)) :
    pr = buildParamRanges (topTrials trials p) ∧ buildMinMax pr = .ok data := by
  simp only [_get_top_trials_param_ranges] at h
  split_ifs at h with h1 h2
  cases hB : buildMinMax (buildParamRanges (topTrials trials p)) with
  | error e => rw [hB] at h; simp at h
  | ok d =>
    rw [hB] at h
    have hinj := Except.ok.inj h
    obtain ⟨h3, h4⟩ := (Prod.mk.injEq _ _ _ _).mp hinj
    subst h3
    subst h4
    exact ⟨rfl, hB⟩

theorem dictAppend_keys_mono (d : List (String × List Value)) (k' : String)
    (v : Value) (k : String) (h : k ∈ d.map Prod.fst) :
    k ∈ (dictAppend d k' v).map Prod.fst := by
  cases hc : d.any (fun kv => kv.1 = k') with
  | true => rw [dictAppend_keysMap d k' v hc]; exact h
  | false =>
    rw [dictAppend_neg d k' v hc, List.map_append]
    exact List.mem_append_left _ h

theorem addTrialColumns_keys_mono (d : List (String × List Value)) (i : Nat)
    (t : FrozenTrial) (k : String) (h : k ∈ d.map Prod.fst) :
    k ∈ (addTrialColumns d i t).map Prod.fst := by
  unfold addTrialColumns
  have hgen : ∀ (l : List (String × Value)) (d0 : List (String × List Value)),
      k ∈ d0.map Prod.fst →
      k ∈ ((l.foldl (fun acc pv => dictAppend acc pv.1 pv.2) d0)).map Prod.fst := by
    intro l
    induction l with
    | nil => intro d0 h0; exact h0
    | cons pv rest ih =>
      intro d0 h0
      simp only [List.foldl_cons]
      exact ih _ (dictAppend_keys_mono d0 pv.1 pv.2 k h0)
  exact hgen _ _ (dictAppend_keys_mono _ _ _ k (dictAppend_keys_mono _ _ _ k h))

theorem buildParamRanges_base_keys (top : List FrozenTrial) :
    "trial_number" ∈ (buildParamRanges top).map Prod.fst ∧
    "best_trials" ∈ (buildParamRanges top).map Prod.fst := by
  unfold buildParamRanges
  have hgen : ∀ (l : List (Nat × FrozenTrial)) (d : List (String × List Value))
      (k : String), k ∈ d.map Prod.fst →
      k ∈ ((l.foldl (fun d p => addTrialColumns d p.1 p.2) d)).map Prod.fst := by
    intro l
    induction l with
    | nil => intro d k h; exact h
    | cons q rest ih =>
      intro d k h
      simp only [List.foldl_cons]
      exact ih _ k (addTrialColumns_keys_mono d q.1 q.2 k h)
  exact ⟨hgen _ _ _ (by simp), hgen _ _ _ (by simp)⟩

/-- Claim C1: for every ordered sequence of parameter specs, every
frozen-parameter mapping (with distinct keys, as a Python dict has) and
every trial-context stub, a successful `_set_trial_params` returns a
mapping whose keys are exactly the spec names together with the frozen
names, each key occurring once, and every frozen pair survives verbatim —
so on any key collision the frozen value has overwritten the sampled one. -/
theorem set_trial_params_keys_and_frozen_win
    (trial : Trial) (specs : List ParamSpec) (frozen : List (String × Value))
    (ps : List (String × Value))
    (hfro : (frozen.map Prod.fst).Nodup)
    (h : _set_trial_params trial specs frozen = .ok ps) :
    (ps.map Prod.fst).Nodup ∧
    (∀ k, k ∈ ps.map Prod.fst ↔
      k ∈ specs.map ParamSpec.name ∨ k ∈ frozen.map Prod.fst) ∧
    (∀ kv ∈ frozen, kv ∈ ps) := by
  unfold _set_trial_params at h
  cases hfold : specs.foldlM (setParamStep trial) [] with
  | error e => rw [hfold] at h; simp at h
  | ok ps0 =>
    rw [hfold] at h
    have h' : (if frozen.isEmpty = true then Except.ok ps0
        else Except.ok (frozen.foldl (fun acc kv => dictSet acc kv.1 kv.2) ps0)) =
        (Except.ok ps : Except PyError (List (String × Value))) := h
    obtain ⟨hnd0, hmem0⟩ := setParams_fold_keys trial specs [] ps0 hfold
    by_cases hemp : frozen.isEmpty
    · rw [if_pos hemp] at h'
      have hps : ps0 = ps := Except.ok.inj h'
      subst hps
      have hfe : frozen = [] := List.isEmpty_iff.mp hemp
      subst hfe
      refine ⟨hnd0 (by simp), ?_, by simp⟩
      intro k
      rw [hmem0 k]
      simp
    · rw [if_neg hemp] at h'
      have hps : frozen.foldl (fun acc kv => dictSet acc kv.1 kv.2) ps0 = ps :=
        Except.ok.inj h'
      subst hps
      refine ⟨?_, ?_, ?_⟩
      · exact dictSet_foldl_nodup frozen ps0 (hnd0 (by simp))
      · intro k
        rw [dictSet_foldl_keys_mem frozen ps0 k, hmem0 k]
        simp only [List.map_nil, List.not_mem_nil, false_or]
      · intro kv hkv
        exact frozen_overlay_mem frozen ps0 hfro kv hkv

/-- Witness for C1 at a concrete input: spec "a" samples 7, the frozen pair
("a", 1) overwrites it and ("b", 2) is appended. -/
theorem set_trial_params_keys_and_frozen_win_witness :
    (frozenAB.map Prod.fst).Nodup ∧
    _set_trial_params trialIntStub specsIntOnly frozenAB =
      .ok [("a", Value.vInt 1), ("b", Value.vInt 2)] ∧
    (([("a", Value.vInt 1), ("b", Value.vInt 2)] :
      List (String × Value)).map Prod.fst).Nodup ∧
    ("a", Value.vInt 1) ∈
      ([("a", Value.vInt 1), ("b", Value.vInt 2)] : List (String × Value)) := by
  have H := set_trial_params_keys_and_frozen_win trialIntStub specsIntOnly frozenAB
    [("a", Value.vInt 1), ("b", Value.vInt 2)] (by decide) (by decide)
  exact ⟨by decide, by decide, H.1, H.2.2 ("a", Value.vInt 1) (by decide)⟩

/-- Claim C2 counterexample: with the unrecognized kind "suggest_unknown"
the resolver fails with an `AttributeError` naming only the kind, not with
a `ConfigurationError` naming the parameter. -/
theorem unknown_kind_not_configuration_error :
    _set_trial_params trialStdStub [specUnknownKind] [] =
      .error (.attributeError "Trial object has no attribute suggest_unknown") ∧
    isConfigurationErrorResult
      (_set_trial_params trialStdStub [specUnknownKind] []) = false := by
  exact ⟨by decide, by decide⟩

/-- Claim C2 amended: a spec whose suggest type is neither the special grid
kind nor a capability of the trial object makes resolution of that spec
fail with an `AttributeError` naming the kind, and makes the whole
resolver raise — it never silently skips the spec. -/
theorem unknown_kind_fails (trial : Trial) (specs : List ParamSpec)
    (frozen : List (String × Value)) (s : ParamSpec)
    (hs : s ∈ specs) (hmeth : s.suggest_type ∉ trial.methods)
    (hgrid : s.suggest_type ≠ "suggest_grid") :
    resolveSpec trial s =
      .error (.attributeError ("Trial object has no attribute " ++ s.suggest_type)) ∧
    exceptIsError (_set_trial_params trial specs frozen) = true := by
  have hres : resolveSpec trial s =
      .error (.attributeError ("Trial object has no attribute " ++ s.suggest_type)) := by
    unfold resolveSpec
    rw [if_neg hgrid]
    by_cases hcat : pyInStr "categorical" s.suggest_type = true
    · rw [if_pos hcat, if_neg hmeth]
    · rw [if_neg hcat, if_neg hmeth]
  have hfold : ∀ (l : List ParamSpec) (acc : List (String × Value)), s ∈ l →
      ∃ e, l.foldlM (setParamStep trial) acc = .error e := by
    intro l
    induction l with
    | nil => intro acc hmem; cases hmem
    | cons a rest ih =>
      intro acc hmem
      rw [List.foldlM_cons]
      cases hstep : setParamStep trial acc a with
      | error e => rw [exceptBind_err]; exact ⟨e, rfl⟩
      | ok acc1 =>
        rw [exceptBind_ok]
        rcases List.mem_cons.mp hmem with rfl | hmem'
        · exfalso
          unfold setParamStep at hstep
          rw [hres] at hstep
          simp at hstep
        · exact ih acc1 hmem'
  obtain ⟨e, he⟩ := hfold specs [] hs
  refine ⟨hres, ?_⟩
  unfold _set_trial_params
  rw [he]
  rfl

/-- Witness for the amended C2 at a concrete input. -/
theorem unknown_kind_fails_witness :
    specUnknownKind ∈ [specUnknownKind] ∧
    specUnknownKind.suggest_type ∉ trialStdStub.methods ∧
    specUnknownKind.suggest_type ≠ "suggest_grid" ∧
    resolveSpec trialStdStub specUnknownKind =
      .error (.attributeError
        ("Trial object has no attribute " ++ specUnknownKind.suggest_type)) ∧
    exceptIsError (_set_trial_params trialStdStub [specUnknownKind] []) = true := by
  have H := unknown_kind_fails trialStdStub [specUnknownKind] [] specUnknownKind
    (by decide) (by decide) (by decide)
  exact ⟨by decide, by decide, by decide, H.1, H.2⟩

/-- Claim C3: when every trial has an empty result vector the aggregator
raises the all-trials-skipped `ValueError` (the specification's
`AllTrialsSkipped`) and returns no tables. -/
theorem all_skipped_raises (trials : List FrozenTrial) (p : Nat)
    (h : ∀ t ∈ trials, t.values = []) :
    _get_top_trials_param_ranges trials p =
      .error (.valueError "All trials have skipped.\n\n") := by
  have hf : trialsExceptSkipped trials = [] := by
    unfold trialsExceptSkipped
    rw [List.filter_eq_nil_iff]
    intro t ht
    simp [h t ht]
  simp [_get_top_trials_param_ranges, hf]

/-- Witness for C3 at a concrete input. -/
theorem all_skipped_raises_witness :
    skippedOnlyTrials.all (fun t => t.values.isEmpty) = true ∧
    _get_top_trials_param_ranges skippedOnlyTrials 20 =
      .error (.valueError "All trials have skipped.\n\n") :=
  ⟨by decide, all_skipped_raises skippedOnlyTrials 20 (by decide)⟩

/-- Claim C4: the aggregator sorts the completed trials descending by
lexicographic comparison of their result vectors (a stable descending
sort, here a permutation sorted under `descOrder`) and selects exactly the
first `floor(len(completed) * top_percent / 100)` of them; on the
specification scenario with `top_percent = 50` the selection is exactly
trial number 3. -/
theorem aggregator_sort_and_select (trials : List FrozenTrial) (p : Nat)
    (hp : p ≤ 100) (hne : trialsExceptSkipped trials ≠ []) :
    (sortedTrials trials).Perm (trialsExceptSkipped trials) ∧
    (sortedTrials trials).Sorted descOrder ∧
    topTrials trials p =
      (sortedTrials trials).take ((trialsExceptSkipped trials).length * p / 100) ∧
    (topTrials scenarioTrials 50).map FrozenTrial.number = [3] := by
  have hperm := List.perm_insertionSort descOrder (trialsExceptSkipped trials)
  have hlen : (sortedTrials trials).length = (trialsExceptSkipped trials).length :=
    hperm.length_eq
  refine ⟨hperm, List.sorted_insertionSort descOrder _, ?_, by decide⟩
  unfold topTrials topN
  rw [hlen]
  have hle : (trialsExceptSkipped trials).length * p / 100 ≤
      (trialsExceptSkipped trials).length := by
    calc (trialsExceptSkipped trials).length * p / 100
        ≤ (trialsExceptSkipped trials).length * 100 / 100 :=
          Nat.div_le_div_right (Nat.mul_le_mul_left _ hp)
      _ = (trialsExceptSkipped trials).length := Nat.mul_div_cancel _ (by norm_num)
  rw [if_pos hle]

/-- Witness for C4 on the specification scenario. -/
theorem aggregator_sort_and_select_witness :
    (50 : Nat) ≤ 100 ∧ trialsExceptSkipped scenarioTrials ≠ [] ∧
    (topTrials scenarioTrials 50).map FrozenTrial.number = [3] := by
  have H := aggregator_sort_and_select scenarioTrials 50 (by decide) (by decide)
  exact ⟨by decide, by decide, H.2.2.2⟩

/-- Claim C5 (code bug): with `top_percent = 0` and one completed trial the
aggregator does not return an empty table without raising — computing
`min` of the empty `best_trials` column raises Python's empty-sequence
`ValueError`.  The `top_percent = 100` half of the claim does hold: the
second conjunct shows the table covering every completed trial. -/
theorem top_percent_zero_raises :
    _get_top_trials_param_ranges [singleCompletedTrial] 0 =
      .error (.valueError "min() arg is an empty sequence") ∧
    _get_top_trials_param_ranges [singleCompletedTrial] 100 =
      .ok (tableC6, rangesC6) := by
  exact ⟨by decide, by decide⟩

/-- Claim C6 counterexample: on a successful aggregation the per-trial
table has a `trial_number` column, yet the min/max table contains no
`trial_number` row, so it does not hold one row per column. -/
theorem param_range_skips_trial_number :
    _get_top_trials_param_ranges [singleCompletedTrial] 100 =
      .ok (tableC6, rangesC6) ∧
    "trial_number" ∈ tableC6.map Prod.fst ∧
    "trial_number" ∉ rangesC6.map Prod.fst := by
  exact ⟨by decide, by decide, by decide⟩

/-- Claim C6 amended: on every successful aggregation the min/max table
holds one row per column of the per-trial table except `trial_number`
(hence including the `best_trials` rank column), in column order, each row
carrying Python `min` and `max` of that column's observed values. -/
theorem param_range_rows (trials : List FrozenTrial) (p : Nat)
    (pr : List (String × List Value)) (data : List (String × Value × Value))
    (h : _get_top_trials_param_ranges trials p = .ok (pr, data)) :
    data.map Prod.fst = (pr.map Prod.fst).filter (fun s => !(s == "trial_number")) ∧
    "best_trials" ∈ pr.map Prod.fst ∧
    ∀ r ∈ data, ∃ vs, (r.1, vs) ∈ pr ∧ pyMin vs = .ok r.2.1 ∧ pyMax vs = .ok r.2.2 := by
  obtain ⟨hpr, hB⟩ := getTop_ok_inv trials p pr data h
  unfold buildMinMax at hB
  refine ⟨?_, ?_, ?_⟩
  · have := buildMinMax_fold_keys pr [] data hB
    simpa using this
  · rw [hpr]
    exact (buildParamRanges_base_keys _).2
  · intro r hr
    rcases buildMinMax_fold_rows pr [] data hB r hr with habs | hrow
    · cases habs
    · exact hrow

/-- Witness for the amended C6 at a concrete input. -/
theorem param_range_rows_witness :
    _get_top_trials_param_ranges [singleCompletedTrial] 100 =
      .ok (tableC6, rangesC6) ∧
    rangesC6.map Prod.fst =
      (tableC6.map Prod.fst).filter (fun s => !(s == "trial_number")) ∧
    "best_trials" ∈ tableC6.map Prod.fst := by
  have H := param_range_rows [singleCompletedTrial] 100 tableC6 rangesC6 (by decide)
  exact ⟨by decide, H.1, H.2.1⟩

/-- Claim C7: in every produced min/max table, each row's Min is less than
or equal to every observed value of its column and its Max is greater than
or equal to it — expressed through Python comparison: no observed value
compares below Min, and Max compares below no observed value. -/
theorem param_range_bounds (trials : List FrozenTrial) (p : Nat)
    (pr : List (String × List Value)) (data : List (String × Value × Value))
    (nm : String) (mn mx : Value) (vs : List Value) (v : Value)
    (h : _get_top_trials_param_ranges trials p = .ok (pr, data))
    (hrow : (nm, mn, mx) ∈ data) (hcol : (nm, vs) ∈ pr) (hv : v ∈ vs) :
    pyLt v mn = .ok false ∧ pyLt mx v = .ok false := by
  obtain ⟨hpr, hB⟩ := getTop_ok_inv trials p pr data h
  unfold buildMinMax at hB
  rcases buildMinMax_fold_rows pr [] data hB (nm, mn, mx) hrow with habs | hrow'
  · cases habs
  · obtain ⟨vs', hvs', hmn, hmx⟩ := hrow'
    have hnd : (pr.map Prod.fst).Nodup := by
      rw [hpr]
      exact buildParamRanges_keys_nodup _
    have hvv : vs' = vs := assoc_nodup_unique pr hnd nm vs' vs hvs' hcol
    subst hvv
    exact ⟨pyMin_spec vs' mn hmn v hv, pyMax_spec vs' mx hmx v hv⟩

/-- Witness for C7 at a concrete input. -/
theorem param_range_bounds_witness :
    _get_top_trials_param_ranges [singleCompletedTrial] 100 =
      .ok (tableC6, rangesC6) ∧
    ("x", Value.vFloat 3, Value.vFloat 3) ∈ rangesC6 ∧
    ("x", [Value.vFloat 3]) ∈ tableC6 ∧
    Value.vFloat 3 ∈ [Value.vFloat 3] ∧
    pyLt (Value.vFloat 3) (Value.vFloat 3) = .ok false := by
  have H := param_range_bounds [singleCompletedTrial] 100 tableC6 rangesC6 "x"
    (Value.vFloat 3) (Value.vFloat 3) [Value.vFloat 3] (Value.vFloat 3)
    (by decide) (by decide) (by decide) (by decide)
  exact ⟨by decide, by decide, by decide, by decide, H.1⟩

/-- Claim C8 (code bug): with `OPTUNA_FROZEN_PARAMS` missing from the
configuration mapping, `_validate_input` does not proceed with a soft
warning — `raise Warning(...)` raises an exception, aborting construction
before any trial could run with or without a frozen overlay. -/
theorem missing_frozen_params_raises :
    _validate_input inpOk configNoFrozen =
      .error (.warning
        "Could not find the dictionnary entry named OPTUNA_FROZEN_PARAMS in the optuna config file.") := by
  decide

/-- Claim C9 counterexample: with `top_percent_trials = 150` construction
does not fail — the pydantic rejection is caught and only printed, and
`_validate_input` succeeds, so a study would run with the out-of-range
percentage. -/
theorem out_of_range_percent_constructs :
    _validate_input inpBadPercent configOk =
      .ok ⟨true, [specOk], [("seed", Value.vInt 42)]⟩ := by
  decide

/-- Claim C9 amended: an out-of-range top percent is rejected by
`validate_between_0_100`, but the constructor catches the validation error
and only prints it — `_validate_input` either fails for an unrelated
reason or succeeds with the printed-error flag set, never fatally for the
percentage itself. -/
theorem out_of_range_percent_caught (inp : OptunaInputs) (config : Config)
    (hp : inp.top_percent_trials < 0 ∨ 100 < inp.top_percent_trials) :
    exceptIsError (validate_between_0_100 inp.top_percent_trials) = true ∧
    printedFlagOrErr (_validate_input inp config) = true := by
  have hcond : ¬ (inp.top_percent_trials ≥ 0 ∧ inp.top_percent_trials ≤ 100) := by
    rcases hp with h | h <;> omega
  have hval : exceptIsError (validate_between_0_100 inp.top_percent_trials) = true := by
    unfold validate_between_0_100
    rw [if_neg hcond]
    rfl
  refine ⟨hval, ?_⟩
  have hcheck : ∃ e, optunaPydanticCheck inp = .error e := by
    unfold optunaPydanticCheck
    cases h1 : validate_list_of_str inp.metrics_to_optimize "metrics_to_optimize" with
    | error e => exact ⟨e, rfl⟩
    | ok l1 =>
      cases h2 : validate_list_of_str inp.directions "directions" with
      | error e => exact ⟨e, rfl⟩
      | ok l2 =>
        cases h3 : validate_between_0_100 inp.top_percent_trials with
        | error e => exact ⟨e, rfl⟩
        | ok n =>
          rw [validate_between_0_100, if_neg hcond] at h3
          simp at h3
  obtain ⟨e, he⟩ := hcheck
  simp only [_validate_input, he]
  split_ifs <;> rfl

/-- Witness for the amended C9 at a concrete input. -/
theorem out_of_range_percent_caught_witness :
    (inpBadPercent.top_percent_trials < 0 ∨ 100 < inpBadPercent.top_percent_trials) ∧
    exceptIsError (validate_between_0_100 inpBadPercent.top_percent_trials) = true ∧
    printedFlagOrErr (_validate_input inpBadPercent configOk) = true := by
  have H := out_of_range_percent_caught inpBadPercent configOk (Or.inr (by decide))
  exact ⟨Or.inr (by decide), H.1, H.2⟩

/-- Claim C10: for a grid-kind spec the resolver stringifies every range
value, requests one categorical choice among those strings, and coerces
the chosen string back to a float, which becomes the resolved value;
concretely, choosing "2" from the stringified grid `["1", "2"]` resolves
parameter "n" to the float 2.0. -/
theorem grid_stringify_choose_float (trial : Trial) (s : ParamSpec)
    (hgrid : s.suggest_type = "suggest_grid")
    (hcat : "suggest_categorical" ∈ trial.methods) :
    resolveSpec trial s =
      pyFloatValue (trial.call "suggest_categorical" s.name
        (s.range.map (fun p => Value.vStr (pyStr p))) []) ∧
    _set_trial_params trialGridStub [specGrid] [] = .ok [("n", Value.vFloat 2)] := by
  refine ⟨?_, by decide⟩
  simp [resolveSpec, hgrid, hcat]

/-- Witness for C10 at a concrete input. -/
theorem grid_stringify_choose_float_witness :
    specGrid.suggest_type = "suggest_grid" ∧
    "suggest_categorical" ∈ trialGridStub.methods ∧
    resolveSpec trialGridStub specGrid =
      pyFloatValue (trialGridStub.call "suggest_categorical" specGrid.name
        (specGrid.range.map (fun p => Value.vStr (pyStr p))) []) ∧
    _set_trial_params trialGridStub [specGrid] [] = .ok [("n", Value.vFloat 2)] := by
  have H := grid_stringify_choose_float trialGridStub specGrid (by decide) (by decide)
  exact ⟨by decide, by decide, H.1, H.2⟩
